import Mathlib

/-!
Shallow embedding of the SEV/SEV-ES/SEV-SNP launch-lifecycle and
page-state-change (PSC) code of `target/i386/sev.c`, together with theorems
settling the specification claims about it.

External collaborators (the privileged platform ioctl channel, the guest
memory mapper, the memory-conversion service, base64 decoding, SHA-256)
are passed in as explicit function parameters ("oracles"); the control flow
around them is translated statement-for-statement from the C source.
-/

namespace Sev

/-! ## Page-state-change protocol (`struct snp_psc_desc`, `next_contig_gpa_range`,
`kvm_handle_vmgexit_psc`) -/

/-- One `struct psc_entry`: a 64-bit field split as
`cur_page:12, gfn:40, operation:4, pagesize:1, reserved:7`. -/
structure PscEntry where
  cur_page  : Nat
  gfn       : Nat
  operation : Nat
  pagesize  : Nat
  deriving Repr, DecidableEq, Inhabited

/-- The `struct psc_hdr` cursor pair (both `uint16_t`). -/
structure PscHdr where
  cur_entry : Nat
  end_entry : Nat
  deriving Repr, DecidableEq, Inhabited

/-- The `struct snp_psc_desc` copied out of the 0x7f0-byte shared GHCB buffer.
In the C layout `entries` has exactly `VMGEXIT_PSC_MAX_ENTRY = 253` elements;
we keep it a list so that out-of-bounds indexing is observable. -/
structure SnpPscDesc where
  hdr : PscHdr
  entries : List PscEntry
  deriving Repr, DecidableEq, Inhabited

def VMGEXIT_PSC_MAX_ENTRY : Nat := 253

def GHCB_SHARED_BUF_SIZE : Nat := 0x7f0

/-- `PSC_ERROR_GENERIC (0x100UL << 32)`. -/
def PSC_ERROR_GENERIC : Nat := 0x100 * 2 ^ 32

/-- Page count of one entry: `entry->pagesize ? 512 : 1`. -/
def entryPages (e : PscEntry) : Nat := if e.pagesize != 0 then 512 else 1

/-- Direction of one entry: `entry->operation == 1` means to-private. -/
def entryPriv (e : PscEntry) : Bool := e.operation == 1

/-- Result of `next_contig_gpa_range`: the (possibly `cur_page`-updated)
entry array, the four out-parameters, and `found = true` iff the C function
returned 0 (`found = false` is the `-ENOENT` return). -/
structure RangeOut where
  entries : List PscEntry
  entries_processed : Nat
  gfn_base : Nat
  gfn_count : Nat
  range_to_private : Bool
  found : Bool
  deriving Repr, DecidableEq, Inhabited

/-- Loop body of `next_contig_gpa_range`, iterating
`for (i = cur_entry; i <= end_entry; i++)`, recursing structurally on the
exact remaining iteration count `endE + 1 - i` (see `nextContigLoop`).
Reading `desc->entries[i]` out of bounds of the descriptor (C undefined
behaviour: the array has 253 slots) is modelled by returning `none`. -/
def nextContigGo (endE : Nat) :
    Nat → List PscEntry → Nat → Nat → Nat → Nat → Bool → Option RangeOut
  | 0, es, _, ep, gb, gc, tp => some ⟨es, ep, gb, gc, tp, gc != 0⟩
  | fuel + 1, es, i, ep, gb, gc, tp =>
    if i ≤ endE then
      match es[i]? with
      | none => none
      | some entry =>
        let to_private := entryPriv entry
        let page_count := entryPages entry
        let gb' := if gc = 0 then entry.gfn else gb
        let tp' := if gc = 0 then to_private else tp
        if entry.gfn ≠ gb' + gc ∨ to_private ≠ tp' then
          some ⟨es, ep, gb', gc, tp', true⟩
        else
          nextContigGo endE fuel (es.set i { entry with cur_page := page_count })
            (i + 1) (ep + 1) gb' (gc + page_count) tp'
    else
      some ⟨es, ep, gb, gc, tp, gc != 0⟩

/-- The loop of `next_contig_gpa_range` from index `i` with accumulated
out-parameters: `endE + 1 - i` is exactly the number of remaining loop
iterations, so instantiating `nextContigGo` with it is the C loop itself. -/
def nextContigLoop (endE : Nat) (es : List PscEntry) (i : Nat)
    (ep gb gc : Nat) (tp : Bool) : Option RangeOut :=
  nextContigGo endE (endE + 1 - i) es i ep gb gc tp

/-- `next_contig_gpa_range(desc, ...)`. -/
def next_contig_gpa_range (desc : SnpPscDesc) : Option RangeOut :=
  nextContigLoop desc.hdr.end_entry desc.entries desc.hdr.cur_entry 0 0 0 false

/-- Outcome of the `kvm_handle_vmgexit_psc` processing loop: the descriptor
written back to the shared buffer, the `*psc_ret` value, and the list of
`kvm_convert_memory(gpa, len, to_private)` calls issued, in order. -/
structure PscResult where
  desc : SnpPscDesc
  psc_ret : Nat
  calls : List (Nat × Nat × Bool)
  deriving Repr, DecidableEq, Inhabited

/-- The `while (!next_contig_gpa_range(...))` loop of `kvm_handle_vmgexit_psc`,
with `convert` standing for the external `kvm_convert_memory` collaborator.
`fuel` bounds the iteration count (the loop has no syntactic bound); `none`
means either out-of-bounds entry access or fuel exhaustion. -/
def pscLoop (convert : Nat → Nat → Bool → Int) :
    Nat → SnpPscDesc → Option PscResult
  | 0, _ => none
  | fuel + 1, desc =>
    match next_contig_gpa_range desc with
    | none => none
    | some r =>
      if r.found then
        let c : Nat × Nat × Bool :=
          (r.gfn_base * 0x1000, r.gfn_count * 0x1000, r.range_to_private)
        if convert c.1 c.2.1 c.2.2 ≠ 0 then
          some ⟨⟨desc.hdr, r.entries⟩, PSC_ERROR_GENERIC, [c]⟩
        else
          match pscLoop convert fuel
              ⟨⟨(desc.hdr.cur_entry + r.entries_processed) % 65536,
                desc.hdr.end_entry⟩, r.entries⟩ with
          | none => none
          | some res => some ⟨res.desc, res.psc_ret, c :: res.calls⟩
      else
        some ⟨⟨desc.hdr, r.entries⟩, 0, []⟩

/-- `kvm_handle_vmgexit_psc` on an already-copied-out descriptor, with both
`address_space_map` calls succeeding (guest memory mapping is an external
collaborator). The returned descriptor is the one copied back into the
shared buffer. The fuel 65537 exceeds any possible number of iterations of
a terminating run (`cur_entry` is a `uint16_t`). -/
def kvm_handle_vmgexit_psc (convert : Nat → Nat → Bool → Int)
    (desc : SnpPscDesc) : Option PscResult :=
  pscLoop convert 65537 desc

/-! ### Specification-side description of the coalescing run

`specRun` follows the spec's words ("the longest contiguous run ... where
consecutive entries have adjacent guest frame numbers and identical
to-private/to-shared direction, counting 512 base pages per large entry"):
it counts, from position `i`, how many further entries continue a run whose
next expected frame is `base` and whose direction is `dir`. -/

/-- Modelled from the spec: number of entries at positions `i, i+1, ...`
(up to `endE`) continuing a run expecting frame `base`, direction `dir`. -/
def specRun (endE : Nat) (es : List PscEntry) (dir : Bool) (base i : Nat) : Nat :=
  if i ≤ endE then
    match es[i]? with
    | none => 0
    | some e =>
      if e.gfn = base ∧ entryPriv e = dir then
        1 + specRun endE es dir (base + entryPages e) (i + 1)
      else 0
  else 0
  termination_by endE + 1 - i
  decreasing_by simp_wf; omega

/-- Modelled from the spec: total base-page count of the same run. -/
def specRunPages (endE : Nat) (es : List PscEntry) (dir : Bool) (base i : Nat) : Nat :=
  if i ≤ endE then
    match es[i]? with
    | none => 0
    | some e =>
      if e.gfn = base ∧ entryPriv e = dir then
        entryPages e + specRunPages endE es dir (base + entryPages e) (i + 1)
      else 0
  else 0
  termination_by endE + 1 - i
  decreasing_by simp_wf; omega

/-- Modelled from the spec: length in entries of the longest contiguous
same-direction run starting at cursor `cur`. -/
def specRunLen (endE : Nat) (es : List PscEntry) (cur : Nat) : Nat :=
  if cur ≤ endE then
    match es[cur]? with
    | none => 0
    | some e => 1 + specRun endE es (entryPriv e) (e.gfn + entryPages e) (cur + 1)
  else 0

/-- Modelled from the spec: total base-page count of the longest contiguous
same-direction run starting at cursor `cur`. -/
def specRunLenPages (endE : Nat) (es : List PscEntry) (cur : Nat) : Nat :=
  if cur ≤ endE then
    match es[cur]? with
    | none => 0
    | some e => entryPages e + specRunPages endE es (entryPriv e) (e.gfn + entryPages e) (cur + 1)
  else 0

lemma specRun_past {endE i : Nat} (es : List PscEntry) (dir : Bool) (base : Nat)
    (hi : ¬ i ≤ endE) : specRun endE es dir base i = 0 := by
  rw [specRun]; simp [hi]

lemma specRun_cont {endE i : Nat} {es : List PscEntry} {dir : Bool} {base : Nat}
    {e : PscEntry} (hi : i ≤ endE) (h : es[i]? = some e)
    (hc : e.gfn = base ∧ entryPriv e = dir) :
    specRun endE es dir base i = 1 + specRun endE es dir (base + entryPages e) (i + 1) := by
  rw [specRun]; simp [hi, h, hc]

lemma specRun_stop {endE i : Nat} {es : List PscEntry} {dir : Bool} {base : Nat}
    {e : PscEntry} (hi : i ≤ endE) (h : es[i]? = some e)
    (hc : ¬ (e.gfn = base ∧ entryPriv e = dir)) :
    specRun endE es dir base i = 0 := by
  rw [specRun]; simp [hi, h, hc]

lemma specRunPages_past {endE i : Nat} (es : List PscEntry) (dir : Bool) (base : Nat)
    (hi : ¬ i ≤ endE) : specRunPages endE es dir base i = 0 := by
  rw [specRunPages]; simp [hi]

lemma specRunPages_cont {endE i : Nat} {es : List PscEntry} {dir : Bool} {base : Nat}
    {e : PscEntry} (hi : i ≤ endE) (h : es[i]? = some e)
    (hc : e.gfn = base ∧ entryPriv e = dir) :
    specRunPages endE es dir base i =
      entryPages e + specRunPages endE es dir (base + entryPages e) (i + 1) := by
  rw [specRunPages]; simp [hi, h, hc]

lemma specRunPages_stop {endE i : Nat} {es : List PscEntry} {dir : Bool} {base : Nat}
    {e : PscEntry} (hi : i ≤ endE) (h : es[i]? = some e)
    (hc : ¬ (e.gfn = base ∧ entryPriv e = dir)) :
    specRunPages endE es dir base i = 0 := by
  rw [specRunPages]; simp [hi, h, hc]

lemma specRun_congr (endE : Nat) (es es' : List PscEntry) (dir : Bool) :
    ∀ n i base, endE + 1 - i ≤ n → (∀ j, i ≤ j → es[j]? = es'[j]?) →
      specRun endE es dir base i = specRun endE es' dir base i := by
  intro n
  induction n with
  | zero =>
    intro i base hn _
    have hi : ¬ i ≤ endE := by omega
    rw [specRun_past es dir base hi, specRun_past es' dir base hi]
  | succ n ih =>
    intro i base hn hagree
    by_cases hi : i ≤ endE
    · cases h' : es'[i]? with
      | none =>
        have h : es[i]? = none := by rw [hagree i le_rfl, h']
        rw [specRun, specRun]; simp [hi, h, h']
      | some e =>
        have h : es[i]? = some e := by rw [hagree i le_rfl, h']
        by_cases hc : e.gfn = base ∧ entryPriv e = dir
        · rw [specRun_cont hi h hc, specRun_cont hi h' hc,
            ih (i + 1) (base + entryPages e) (by omega)
              (fun j hj => hagree j (by omega))]
        · rw [specRun_stop hi h hc, specRun_stop hi h' hc]
    · rw [specRun_past es dir base hi, specRun_past es' dir base hi]

lemma specRunPages_congr (endE : Nat) (es es' : List PscEntry) (dir : Bool) :
    ∀ n i base, endE + 1 - i ≤ n → (∀ j, i ≤ j → es[j]? = es'[j]?) →
      specRunPages endE es dir base i = specRunPages endE es' dir base i := by
  intro n
  induction n with
  | zero =>
    intro i base hn _
    have hi : ¬ i ≤ endE := by omega
    rw [specRunPages_past es dir base hi, specRunPages_past es' dir base hi]
  | succ n ih =>
    intro i base hn hagree
    by_cases hi : i ≤ endE
    · cases h' : es'[i]? with
      | none =>
        have h : es[i]? = none := by rw [hagree i le_rfl, h']
        rw [specRunPages, specRunPages]; simp [hi, h, h']
      | some e =>
        have h : es[i]? = some e := by rw [hagree i le_rfl, h']
        by_cases hc : e.gfn = base ∧ entryPriv e = dir
        · rw [specRunPages_cont hi h hc, specRunPages_cont hi h' hc,
            ih (i + 1) (base + entryPages e) (by omega)
              (fun j hj => hagree j (by omega))]
        · rw [specRunPages_stop hi h hc, specRunPages_stop hi h' hc]
    · rw [specRunPages_past es dir base hi, specRunPages_past es' dir base hi]

lemma specRun_le (endE : Nat) (es : List PscEntry) (dir : Bool) :
    ∀ n i base, endE + 1 - i ≤ n → specRun endE es dir base i ≤ endE + 1 - i := by
  intro n
  induction n with
  | zero =>
    intro i base hn
    have hi : ¬ i ≤ endE := by omega
    rw [specRun_past es dir base hi]; omega
  | succ n ih =>
    intro i base hn
    by_cases hi : i ≤ endE
    · cases h' : es[i]? with
      | none =>
        rw [specRun]; simp [hi, h']
      | some e =>
        by_cases hc : e.gfn = base ∧ entryPriv e = dir
        · rw [specRun_cont hi h' hc]
          have := ih (i + 1) (base + entryPages e) (by omega)
          omega
        · rw [specRun_stop hi h' hc]
          omega
    · rw [specRun_past es dir base hi]; omega

lemma entryPages_pos (e : PscEntry) : 1 ≤ entryPages e := by
  rw [entryPages]; split <;> omega

lemma nextContigLoop_past {endE i : Nat} (es : List PscEntry) (ep gb gc : Nat)
    (tp : Bool) (hi : ¬ i ≤ endE) :
    nextContigLoop endE es i ep gb gc tp = some ⟨es, ep, gb, gc, tp, gc != 0⟩ := by
  rw [nextContigLoop, show endE + 1 - i = 0 from by omega]
  rfl

lemma nextContigLoop_oob {endE i : Nat} {es : List PscEntry} (ep gb gc : Nat)
    (tp : Bool) (hi : i ≤ endE) (h : es[i]? = none) :
    nextContigLoop endE es i ep gb gc tp = none := by
  rw [nextContigLoop, show endE + 1 - i = (endE - i) + 1 from by omega]
  simp [nextContigGo, hi, h]

lemma nextContigLoop_start {endE i : Nat} {es : List PscEntry} {e : PscEntry}
    (ep gb : Nat) (tp : Bool) (hi : i ≤ endE) (h : es[i]? = some e) :
    nextContigLoop endE es i ep gb 0 tp =
      nextContigLoop endE (es.set i { e with cur_page := entryPages e }) (i + 1)
        (ep + 1) e.gfn (entryPages e) (entryPriv e) := by
  rw [nextContigLoop, show endE + 1 - i = (endE - i) + 1 from by omega,
    nextContigLoop, show endE + 1 - (i + 1) = endE - i from by omega]
  simp [nextContigGo, hi, h]

lemma nextContigLoop_break {endE i : Nat} {es : List PscEntry} {e : PscEntry}
    (ep gb gc : Nat) (tp : Bool) (hi : i ≤ endE) (h : es[i]? = some e) (hgc : gc ≠ 0)
    (hbr : ¬ (e.gfn = gb + gc ∧ entryPriv e = tp)) :
    nextContigLoop endE es i ep gb gc tp = some ⟨es, ep, gb, gc, tp, true⟩ := by
  rw [nextContigLoop, show endE + 1 - i = (endE - i) + 1 from by omega]
  have hor : e.gfn ≠ gb + gc ∨ entryPriv e ≠ tp := by tauto
  simp [nextContigGo, hi, h, hgc, hor]

lemma nextContigLoop_cont {endE i : Nat} {es : List PscEntry} {e : PscEntry}
    (ep gb gc : Nat) (tp : Bool) (hi : i ≤ endE) (h : es[i]? = some e) (hgc : gc ≠ 0)
    (hcn : e.gfn = gb + gc ∧ entryPriv e = tp) :
    nextContigLoop endE es i ep gb gc tp =
      nextContigLoop endE (es.set i { e with cur_page := entryPages e }) (i + 1)
        (ep + 1) gb (gc + entryPages e) tp := by
  rw [nextContigLoop, show endE + 1 - i = (endE - i) + 1 from by omega,
    nextContigLoop, show endE + 1 - (i + 1) = endE - i from by omega]
  have hor : ¬ (e.gfn ≠ gb + gc ∨ entryPriv e ≠ tp) := by tauto
  simp [nextContigGo, hi, h, hgc, hor]

/-- Invariant characterization of the `next_contig_gpa_range` loop in mid-run
state (`gc ≠ 0`): it terminates with return value 0 and consumes exactly the
spec-side longest-run continuation. -/
lemma nextContigLoop_run (endE : Nat) :
    ∀ n (es : List PscEntry) (i ep gb gc : Nat) (tp : Bool),
      endE + 1 - i ≤ n → endE < es.length → gc ≠ 0 →
      ∃ r, nextContigLoop endE es i ep gb gc tp = some r ∧
        r.found = true ∧
        r.entries_processed = ep + specRun endE es tp (gb + gc) i ∧
        r.gfn_count = gc + specRunPages endE es tp (gb + gc) i ∧
        r.gfn_base = gb ∧ r.range_to_private = tp ∧
        r.entries.length = es.length := by
  intro n
  induction n with
  | zero =>
    intro es i ep gb gc tp hn hlen hgc
    have hi : ¬ i ≤ endE := by omega
    refine ⟨_, nextContigLoop_past es ep gb gc tp hi, ?_, ?_, ?_, rfl, rfl, rfl⟩
    · simp [hgc]
    · rw [specRun_past es tp (gb + gc) hi]; simp
    · rw [specRunPages_past es tp (gb + gc) hi]; simp
  | succ n ih =>
    intro es i ep gb gc tp hn hlen hgc
    by_cases hi : i ≤ endE
    · have hilt : i < es.length := by omega
      have h : es[i]? = some es[i] := List.getElem?_eq_getElem hilt
      set e := es[i] with he
      by_cases hcn : e.gfn = gb + gc ∧ entryPriv e = tp
      · rw [nextContigLoop_cont ep gb gc tp hi h hgc hcn]
        have hpc := entryPages_pos e
        obtain ⟨r, hr, hfound, hep, hgcnt, hgb, htp, hlen2⟩ :=
          ih (es.set i { e with cur_page := entryPages e }) (i + 1) (ep + 1) gb
            (gc + entryPages e) tp (by omega) (by rw [List.length_set]; omega)
            (by omega)
        have hagree : ∀ j, i + 1 ≤ j →
            (es.set i { e with cur_page := entryPages e })[j]? = es[j]? := by
          intro j hj
          exact List.getElem?_set_ne (by omega)
        refine ⟨r, hr, hfound, ?_, ?_, hgb, htp, by rw [hlen2, List.length_set]⟩
        · rw [hep, specRun_congr endE _ es tp (endE + 1) (i + 1) _ (by omega) hagree,
            specRun_cont hi h hcn]
          have : gb + (gc + entryPages e) = gb + gc + entryPages e := by omega
          rw [this]
          omega
        · rw [hgcnt, specRunPages_congr endE _ es tp (endE + 1) (i + 1) _ (by omega) hagree,
            specRunPages_cont hi h hcn]
          have : gb + (gc + entryPages e) = gb + gc + entryPages e := by omega
          rw [this]
          omega
      · refine ⟨_, nextContigLoop_break ep gb gc tp hi h hgc hcn, rfl, ?_, ?_, rfl, rfl, rfl⟩
        · rw [specRun_stop hi h hcn]; simp
        · rw [specRunPages_stop hi h hcn]; simp
    · have hi' : ¬ i ≤ endE := hi
      refine ⟨_, nextContigLoop_past es ep gb gc tp hi', ?_, ?_, ?_, rfl, rfl, rfl⟩
      · simp [hgc]
      · rw [specRun_past es tp (gb + gc) hi']; simp
      · rw [specRunPages_past es tp (gb + gc) hi']; simp

lemma specRunLen_cons {endE cur : Nat} {es : List PscEntry} {e : PscEntry}
    (hc : cur ≤ endE) (h : es[cur]? = some e) :
    specRunLen endE es cur =
      1 + specRun endE es (entryPriv e) (e.gfn + entryPages e) (cur + 1) := by
  rw [specRunLen]; simp [hc, h]

lemma specRunLenPages_cons {endE cur : Nat} {es : List PscEntry} {e : PscEntry}
    (hc : cur ≤ endE) (h : es[cur]? = some e) :
    specRunLenPages endE es cur =
      entryPages e + specRunPages endE es (entryPriv e) (e.gfn + entryPages e) (cur + 1) := by
  rw [specRunLenPages]; simp [hc, h]

/-- With the cursor at or before the end entry and all loop indices in bounds,
`next_contig_gpa_range` reports a range whose entry count and page count are
exactly those of the spec's longest contiguous same-direction run. -/
lemma next_contig_run (desc : SnpPscDesc)
    (hcur : desc.hdr.cur_entry ≤ desc.hdr.end_entry)
    (hlen : desc.hdr.end_entry < desc.entries.length) :
    ∃ r, next_contig_gpa_range desc = some r ∧ r.found = true ∧
      r.entries_processed = specRunLen desc.hdr.end_entry desc.entries desc.hdr.cur_entry ∧
      r.gfn_count = specRunLenPages desc.hdr.end_entry desc.entries desc.hdr.cur_entry ∧
      1 ≤ r.entries_processed ∧
      r.entries_processed ≤ desc.hdr.end_entry + 1 - desc.hdr.cur_entry ∧
      r.entries.length = desc.entries.length := by
  obtain ⟨hdr, es⟩ := desc
  obtain ⟨cur, endE⟩ := hdr
  simp only at hcur hlen ⊢
  have hilt : cur < es.length := by omega
  have h : es[cur]? = some es[cur] := List.getElem?_eq_getElem hilt
  set e := es[cur] with he
  rw [next_contig_gpa_range]
  simp only
  rw [nextContigLoop_start 0 0 false hcur h]
  have hpc := entryPages_pos e
  obtain ⟨r, hr, hfound, hep, hgcnt, hgb, htp, hlen2⟩ :=
    nextContigLoop_run endE (endE + 1) (es.set cur { e with cur_page := entryPages e })
      (cur + 1) 1 e.gfn (entryPages e) (entryPriv e) (by omega)
      (by rw [List.length_set]; omega) (by omega)
  have hagree : ∀ j, cur + 1 ≤ j →
      (es.set cur { e with cur_page := entryPages e })[j]? = es[j]? := by
    intro j hj
    exact List.getElem?_set_ne (by omega)
  have hepr : r.entries_processed =
      1 + specRun endE es (entryPriv e) (e.gfn + entryPages e) (cur + 1) := by
    rw [hep, specRun_congr endE _ es (entryPriv e) (endE + 1) (cur + 1) _ (by omega) hagree]
  have hgcr : r.gfn_count =
      entryPages e + specRunPages endE es (entryPriv e) (e.gfn + entryPages e) (cur + 1) := by
    rw [hgcnt, specRunPages_congr endE _ es (entryPriv e) (endE + 1) (cur + 1) _ (by omega) hagree]
  have hb := specRun_le endE es (entryPriv e) (endE + 1) (cur + 1)
    (e.gfn + entryPages e) (by omega)
  refine ⟨r, hr, hfound, ?_, ?_, by omega, by omega, by rw [hlen2, List.length_set]⟩
  · rw [hepr, specRunLen_cons hcur h]
  · rw [hgcr, specRunLenPages_cons hcur h]

/-- Once the cursor has passed the end entry, `next_contig_gpa_range` returns
`-ENOENT` (no more entries) without touching the descriptor. -/
lemma next_contig_noent (desc : SnpPscDesc)
    (h : desc.hdr.end_entry < desc.hdr.cur_entry) :
    next_contig_gpa_range desc = some ⟨desc.entries, 0, 0, 0, false, false⟩ := by
  rw [next_contig_gpa_range,
    nextContigLoop_past desc.entries 0 0 0 false (by omega)]
  rfl

/-- Master characterization of the `kvm_handle_vmgexit_psc` processing loop
for descriptors whose declared range stays inside the entry array: the loop
terminates, issues at most `end_entry + 1 - cur_entry` conversion calls, and
either every call succeeded with `*psc_ret = 0`, or the calls are a successful
prefix followed by exactly one failing call with `*psc_ret` the sentinel. -/
lemma pscLoop_spec (convert : Nat → Nat → Bool → Int) :
    ∀ (fuel : Nat) (desc : SnpPscDesc),
      desc.hdr.end_entry < desc.entries.length →
      desc.entries.length ≤ 65535 →
      desc.hdr.end_entry + 2 - desc.hdr.cur_entry ≤ fuel → 1 ≤ fuel →
      ∃ r, pscLoop convert fuel desc = some r ∧
        r.calls.length ≤ desc.hdr.end_entry + 1 - desc.hdr.cur_entry ∧
        r.desc.hdr.end_entry = desc.hdr.end_entry ∧
        r.desc.entries.length = desc.entries.length ∧
        ((r.psc_ret = 0 ∧ ∀ c ∈ r.calls, convert c.1 c.2.1 c.2.2 = 0) ∨
         (r.psc_ret = PSC_ERROR_GENERIC ∧ ∃ cs c, r.calls = cs ++ [c] ∧
           (∀ x ∈ cs, convert x.1 x.2.1 x.2.2 = 0) ∧ convert c.1 c.2.1 c.2.2 ≠ 0)) := by
  intro fuel
  induction fuel with
  | zero => intro desc _ _ _ h1; omega
  | succ fuel ih =>
    intro desc hlen hlen65 hfuel _
    by_cases hcur : desc.hdr.cur_entry ≤ desc.hdr.end_entry
    · obtain ⟨r, hr, hfound, _, _, hep1, hepb, hlenr⟩ := next_contig_run desc hcur hlen
      by_cases hcv : convert (r.gfn_base * 0x1000) (r.gfn_count * 0x1000) r.range_to_private ≠ 0
      · have hstep : pscLoop convert (fuel + 1) desc =
            some ⟨⟨desc.hdr, r.entries⟩, PSC_ERROR_GENERIC,
              [(r.gfn_base * 0x1000, r.gfn_count * 0x1000, r.range_to_private)]⟩ := by
          rw [pscLoop, hr]
          simp only [hfound, if_true]
          rw [if_pos hcv]
        refine ⟨_, hstep, ?_, rfl, hlenr, Or.inr ⟨rfl, [], _, rfl, by simp, hcv⟩⟩
        show 1 ≤ _
        omega
      · push_neg at hcv
        have hmod : (desc.hdr.cur_entry + r.entries_processed) % 65536 =
            desc.hdr.cur_entry + r.entries_processed :=
          Nat.mod_eq_of_lt (by omega)
        obtain ⟨res, hres, hcalls, hend, hlen2, hdisj⟩ :=
          ih ⟨⟨(desc.hdr.cur_entry + r.entries_processed) % 65536,
               desc.hdr.end_entry⟩, r.entries⟩
            (show desc.hdr.end_entry < r.entries.length by omega)
            (show r.entries.length ≤ 65535 by omega)
            (show desc.hdr.end_entry + 2 -
                (desc.hdr.cur_entry + r.entries_processed) % 65536 ≤ fuel by
              rw [hmod]; omega)
            (by omega)
        have hcalls2 : res.calls.length ≤
            desc.hdr.end_entry + 1 - (desc.hdr.cur_entry + r.entries_processed) := by
          rw [← hmod]; exact hcalls
        have hcv2 : ¬ convert (r.gfn_base * 0x1000) (r.gfn_count * 0x1000)
            r.range_to_private ≠ 0 := by simp [hcv]
        have hstep : pscLoop convert (fuel + 1) desc =
            some ⟨res.desc, res.psc_ret,
              (r.gfn_base * 0x1000, r.gfn_count * 0x1000, r.range_to_private)
                :: res.calls⟩ := by
          rw [pscLoop, hr]
          simp only [hfound, if_true]
          rw [if_neg hcv2, hres]
        refine ⟨_, hstep, ?_, hend, hlen2.trans hlenr, ?_⟩
        · show ((r.gfn_base * 0x1000, r.gfn_count * 0x1000, r.range_to_private)
            :: res.calls).length ≤ _
          rw [List.length_cons]
          omega
        · rcases hdisj with ⟨hret, hall⟩ | ⟨hret, cs, cl, hceq, hcs, hcl⟩
          · left
            refine ⟨hret, ?_⟩
            intro x hx
            rcases List.mem_cons.mp hx with hx | hx
            · subst hx; simpa using hcv
            · exact hall x hx
          · right
            refine ⟨hret, (r.gfn_base * 0x1000, r.gfn_count * 0x1000,
              r.range_to_private) :: cs, cl, ?_, ?_, hcl⟩
            · show (r.gfn_base * 0x1000, r.gfn_count * 0x1000, r.range_to_private)
                :: res.calls = _
              rw [hceq]
              rfl
            · intro x hx
              rcases List.mem_cons.mp hx with hx | hx
              · subst hx; simpa using hcv
              · exact hcs x hx
    · have hstep : pscLoop convert (fuel + 1) desc =
          some ⟨⟨desc.hdr, desc.entries⟩, 0, []⟩ := by
        rw [pscLoop, next_contig_noent desc (by omega)]
        rfl
      exact ⟨_, hstep, by simp, rfl, rfl, Or.inl ⟨rfl, by simp⟩⟩

/-! ### Concrete descriptors used by the claims -/

/-- Frames 10, 11, 12 all to-private followed by frame 20 to-shared
(4 KiB entries throughout). -/
def descRuns : SnpPscDesc :=
  ⟨⟨0, 3⟩, [⟨0, 10, 1, 0⟩, ⟨0, 11, 1, 0⟩, ⟨0, 12, 1, 0⟩, ⟨0, 20, 2, 0⟩]⟩

/-- Contiguous frames 10, 11, 12 where the direction flips at frame 11. -/
def descFlip : SnpPscDesc :=
  ⟨⟨0, 2⟩, [⟨0, 10, 1, 0⟩, ⟨0, 11, 2, 0⟩, ⟨0, 12, 2, 0⟩]⟩

/-- Three coalesced runs — frames 10,11 to-private, frame 30 to-shared,
frame 50 to-private — used to exercise a conversion failure on the second. -/
def descFail : SnpPscDesc :=
  ⟨⟨0, 3⟩, [⟨0, 10, 1, 0⟩, ⟨0, 11, 1, 0⟩, ⟨0, 30, 2, 0⟩, ⟨0, 50, 1, 0⟩]⟩

/-- A conversion oracle that fails exactly on the range starting at frame 30. -/
def convFail : Nat → Nat → Bool → Int :=
  fun gpa _ _ => if gpa = 30 * 0x1000 then 1 else 0

/-- A descriptor a guest can supply verbatim: the full 253-slot entry array
(frames 0..252, all to-private, 4 KiB) with `end_entry = 253`. -/
def descOob : SnpPscDesc :=
  ⟨⟨0, 253⟩, (List.range 253).map (fun j => ⟨0, j, 1, 0⟩)⟩

/-- C1: for every buffer-based page-state-change request the handler
repeatedly extracts the longest contiguous run from the cursor in which
consecutive entries have adjacent guest frame numbers and one direction
(512 base pages per 2 MiB entry, 1 per 4 KiB entry) and converts the whole
run in one `kvm_convert_memory` call; frames [10,11,12] to-private followed
by frame 20 to-shared yield one call for a 3-page run then one for a 1-page
run, and a direction change at frame 11 ends the run despite contiguity. -/
theorem psc_coalesces_longest_runs :
    (∀ desc : SnpPscDesc, desc.hdr.cur_entry ≤ desc.hdr.end_entry →
      desc.hdr.end_entry < desc.entries.length →
      ∃ r, next_contig_gpa_range desc = some r ∧ r.found = true ∧
        r.entries_processed =
          specRunLen desc.hdr.end_entry desc.entries desc.hdr.cur_entry ∧
        r.gfn_count =
          specRunLenPages desc.hdr.end_entry desc.entries desc.hdr.cur_entry) ∧
    (kvm_handle_vmgexit_psc (fun _ _ _ => 0) descRuns).map PscResult.calls =
      some [(10 * 0x1000, 3 * 0x1000, true), (20 * 0x1000, 1 * 0x1000, false)] ∧
    (kvm_handle_vmgexit_psc (fun _ _ _ => 0) descFlip).map PscResult.calls =
      some [(10 * 0x1000, 1 * 0x1000, true), (11 * 0x1000, 2 * 0x1000, false)] := by
  refine ⟨?_, by decide, by decide⟩
  intro desc hcur hlen
  obtain ⟨r, hr, hf, hep, hgc, _, _, _⟩ := next_contig_run desc hcur hlen
  exact ⟨r, hr, hf, hep, hgc⟩

/-- Witness for C1's universally quantified conjunct at the concrete
descriptor `descRuns`. -/
theorem psc_coalesces_longest_runs_witness :
    ∃ r, next_contig_gpa_range descRuns = some r ∧ r.found = true ∧
      r.entries_processed =
        specRunLen descRuns.hdr.end_entry descRuns.entries descRuns.hdr.cur_entry ∧
      r.gfn_count =
        specRunLenPages descRuns.hdr.end_entry descRuns.entries descRuns.hdr.cur_entry :=
  psc_coalesces_longest_runs.1 descRuns (by decide) (by decide)

/-- C8: on a conversion failure the handler stores the high-bit sentinel
`PSC_ERROR_GENERIC` in the result field and stops after the failing call
(every earlier call succeeded — progress is retained, not rolled back), and
the updated descriptor is produced for write-back in success and failure
alike; concretely, with a failure on the second of three runs the write-back
keeps the advanced cursor (2) and the per-entry progress of the consumed
entries while the third run is never converted. -/
theorem psc_failure_sentinel_and_writeback :
    (∀ (convert : Nat → Nat → Bool → Int) (desc : SnpPscDesc),
      desc.hdr.end_entry < desc.entries.length →
      desc.entries.length ≤ 65535 →
      ∃ r, kvm_handle_vmgexit_psc convert desc = some r ∧
        ((r.psc_ret = 0 ∧ ∀ c ∈ r.calls, convert c.1 c.2.1 c.2.2 = 0) ∨
         (r.psc_ret = PSC_ERROR_GENERIC ∧ ∃ cs c, r.calls = cs ++ [c] ∧
           (∀ x ∈ cs, convert x.1 x.2.1 x.2.2 = 0) ∧
           convert c.1 c.2.1 c.2.2 ≠ 0))) ∧
    kvm_handle_vmgexit_psc convFail descFail =
      some ⟨⟨⟨2, 3⟩, [⟨1, 10, 1, 0⟩, ⟨1, 11, 1, 0⟩, ⟨1, 30, 2, 0⟩, ⟨0, 50, 1, 0⟩]⟩,
        PSC_ERROR_GENERIC,
        [(10 * 0x1000, 2 * 0x1000, true), (30 * 0x1000, 1 * 0x1000, false)]⟩ := by
  refine ⟨?_, by decide⟩
  intro convert desc hlen hlen65
  obtain ⟨r, hr, _, _, _, hdisj⟩ :=
    pscLoop_spec convert 65537 desc hlen hlen65 (by omega) (by omega)
  exact ⟨r, hr, hdisj⟩

/-- Witness for C8's universally quantified conjunct at the concrete
descriptor `descFail` with the failing oracle `convFail`. -/
theorem psc_failure_sentinel_and_writeback_witness :
    ∃ r, kvm_handle_vmgexit_psc convFail descFail = some r ∧
      ((r.psc_ret = 0 ∧ ∀ c ∈ r.calls, convFail c.1 c.2.1 c.2.2 = 0) ∨
       (r.psc_ret = PSC_ERROR_GENERIC ∧ ∃ cs c, r.calls = cs ++ [c] ∧
         (∀ x ∈ cs, convFail x.1 x.2.1 x.2.2 = 0) ∧
         convFail c.1 c.2.1 c.2.2 ≠ 0)) :=
  psc_failure_sentinel_and_writeback.1 convFail descFail (by decide) (by decide)

set_option maxRecDepth 4000 in
/-- C9: the claim that entry accesses stay below index 253 FAILS on the code.
The loop of `next_contig_gpa_range` runs `i` up to the guest-supplied
`end_entry` with no clamp against `VMGEXIT_PSC_MAX_ENTRY`: on a descriptor
with `end_entry = 253` and the full 253-slot entry array it accesses
`entries[253]`, outside indices 0..252 (the embedding returns `none` on the
out-of-bounds access, which the C code performs on memory past the copied
0x7f0-byte buffer). -/
theorem psc_entry_access_out_of_bounds :
    descOob.entries.length = VMGEXIT_PSC_MAX_ENTRY ∧
    descOob.hdr.end_entry = 253 ∧
    next_contig_gpa_range descOob = none ∧
    kvm_handle_vmgexit_psc (fun _ _ _ => 0) descOob = none := by
  exact ⟨by decide, rfl, by decide, by decide⟩

/-- C10: the buffer-based handler terminates on every in-bounds descriptor:
the extractor reports a positive `entries_processed` whenever the cursor has
not passed `end_entry`, reports no-more-entries (found = false, `-ENOENT`)
once it has, and the processing loop issues at most
`end_entry + 1 - cur_entry` conversion calls before stopping. -/
theorem psc_loop_terminates :
    ∀ (convert : Nat → Nat → Bool → Int) (desc : SnpPscDesc),
      desc.hdr.end_entry < desc.entries.length →
      desc.entries.length ≤ 65535 →
      ((∃ r, kvm_handle_vmgexit_psc convert desc = some r ∧
          r.calls.length ≤ desc.hdr.end_entry + 1 - desc.hdr.cur_entry) ∧
       (desc.hdr.cur_entry ≤ desc.hdr.end_entry →
          ∃ r, next_contig_gpa_range desc = some r ∧ r.found = true ∧
            1 ≤ r.entries_processed ∧
            r.entries_processed ≤ desc.hdr.end_entry + 1 - desc.hdr.cur_entry) ∧
       (desc.hdr.end_entry < desc.hdr.cur_entry →
          next_contig_gpa_range desc = some ⟨desc.entries, 0, 0, 0, false, false⟩)) := by
  intro convert desc hlen hlen65
  refine ⟨?_, ?_, next_contig_noent desc⟩
  · obtain ⟨r, hr, hcalls, _, _, _⟩ :=
      pscLoop_spec convert 65537 desc hlen hlen65 (by omega) (by omega)
    exact ⟨r, hr, hcalls⟩
  · intro hcur
    obtain ⟨r, hr, hf, _, _, hep1, hepb, _⟩ := next_contig_run desc hcur hlen
    exact ⟨r, hr, hf, hep1, hepb⟩

/-- Witness for C10 at the concrete descriptor `descFlip` with an
always-succeeding conversion oracle. -/
theorem psc_loop_terminates_witness :
    (∃ r, kvm_handle_vmgexit_psc (fun _ _ _ => 0) descFlip = some r ∧
        r.calls.length ≤ descFlip.hdr.end_entry + 1 - descFlip.hdr.cur_entry) ∧
    (descFlip.hdr.cur_entry ≤ descFlip.hdr.end_entry →
        ∃ r, next_contig_gpa_range descFlip = some r ∧ r.found = true ∧
          1 ≤ r.entries_processed ∧
          r.entries_processed ≤ descFlip.hdr.end_entry + 1 - descFlip.hdr.cur_entry) ∧
    (descFlip.hdr.end_entry < descFlip.hdr.cur_entry →
        next_contig_gpa_range descFlip =
          some ⟨descFlip.entries, 0, 0, 0, false, false⟩) :=
  psc_loop_terminates (fun _ _ _ => 0) descFlip (by decide) (by decide)

/-! ## Extended guest request (`kvm_handle_vmgexit_ext_req`) -/

def TARGET_PAGE_SIZE : Nat := 4096

def SNP_EXT_REQ_ERROR_INVALID_LEN : Nat := 1

def SNP_EXT_REQ_ERROR_BUSY : Nat := 2

/-- `SNP_EXT_REQ_ERROR_GENERIC (1 << 31)`. -/
def SNP_EXT_REQ_ERROR_GENERIC : Nat := 2 ^ 31

/-- Observable outcome of `kvm_handle_vmgexit_ext_req`: the (possibly
updated) `*npages`, the `*vmm_ret` code, and whether the certificate bundle
was copied into the guest buffer. -/
structure ExtReqResult where
  npages : Nat
  vmm_ret : Nat
  copied : Bool
  deriving Repr, DecidableEq, Inhabited

/-- `kvm_handle_vmgexit_ext_req(gpa, npages, vmm_ret)`.  The certificate
file is an external collaborator: `certs_path = none` models no configured
path, `some none` a configured path whose read fails, `some (some sz)` a
successful read of `sz` bytes.  Guest memory mapping is modelled as
succeeding (its shortfall branch depends only on the external mapper). -/
def kvm_handle_vmgexit_ext_req (snp_enabled : Bool)
    (certs_path : Option (Option Nat)) (npages : Nat) : ExtReqResult :=
  let vmm_ret := SNP_EXT_REQ_ERROR_GENERIC
  if !snp_enabled then
    ⟨npages, vmm_ret, false⟩
  else
    match certs_path with
    | none => ⟨npages, 0, false⟩
    | some none => ⟨npages, vmm_ret, false⟩
    | some (some sz) =>
      let buf_sz := npages * TARGET_PAGE_SIZE
      if buf_sz < sz then
        ⟨(sz + TARGET_PAGE_SIZE) / TARGET_PAGE_SIZE,
          SNP_EXT_REQ_ERROR_INVALID_LEN, false⟩
      else
        ⟨npages, 0, true⟩

/-- C2 counterexample: with a 1-page guest buffer and a certificate bundle
of exactly 2 pages (8192 bytes) the handler reports the length error but
requests 3 pages, not the 2 the claim states. -/
theorem ext_req_two_page_bundle_requests_three :
    (kvm_handle_vmgexit_ext_req true (some (some (2 * TARGET_PAGE_SIZE))) 1).vmm_ret
        = SNP_EXT_REQ_ERROR_INVALID_LEN ∧
    (kvm_handle_vmgexit_ext_req true (some (some (2 * TARGET_PAGE_SIZE))) 1).npages = 3 ∧
    ¬ (kvm_handle_vmgexit_ext_req true (some (some (2 * TARGET_PAGE_SIZE))) 1).npages = 2 := by
  decide

/-- C2 (amended): whenever the page-sized guest buffer is smaller than the
certificate bundle, the handler reports `SNP_EXT_REQ_ERROR_INVALID_LEN` and
communicates `sz / 4096 + 1` pages — which is the number of pages actually
required exactly when the bundle size is not a whole multiple of the page
size, and one page more than required when it is. -/
theorem ext_req_length_error_reports_pages :
    ∀ (sz npages : Nat), npages * TARGET_PAGE_SIZE < sz →
      (kvm_handle_vmgexit_ext_req true (some (some sz)) npages).vmm_ret
          = SNP_EXT_REQ_ERROR_INVALID_LEN ∧
      (kvm_handle_vmgexit_ext_req true (some (some sz)) npages).npages
          = sz / TARGET_PAGE_SIZE + 1 ∧
      (¬ sz % TARGET_PAGE_SIZE = 0 →
        (kvm_handle_vmgexit_ext_req true (some (some sz)) npages).npages
          = (sz + TARGET_PAGE_SIZE - 1) / TARGET_PAGE_SIZE) := by
  intro sz npages h
  have hres : kvm_handle_vmgexit_ext_req true (some (some sz)) npages =
      ⟨(sz + TARGET_PAGE_SIZE) / TARGET_PAGE_SIZE,
        SNP_EXT_REQ_ERROR_INVALID_LEN, false⟩ := by
    rw [kvm_handle_vmgexit_ext_req]
    simp only [Bool.not_true, Bool.false_eq_true, if_false]
    rw [if_pos h]
  rw [hres]
  refine ⟨rfl, ?_, ?_⟩
  · show (sz + TARGET_PAGE_SIZE) / TARGET_PAGE_SIZE = sz / TARGET_PAGE_SIZE + 1
    rw [TARGET_PAGE_SIZE]
    omega
  · intro hnd
    show (sz + TARGET_PAGE_SIZE) / TARGET_PAGE_SIZE =
      (sz + TARGET_PAGE_SIZE - 1) / TARGET_PAGE_SIZE
    rw [TARGET_PAGE_SIZE] at hnd ⊢
    omega

/-- Witness for C2's amended theorem at a 4097-byte bundle and a 1-page
buffer: the handler requests 2 pages, the exact requirement. -/
theorem ext_req_length_error_reports_pages_witness :
    (kvm_handle_vmgexit_ext_req true (some (some 4097)) 1).vmm_ret
        = SNP_EXT_REQ_ERROR_INVALID_LEN ∧
    (kvm_handle_vmgexit_ext_req true (some (some 4097)) 1).npages
        = 4097 / TARGET_PAGE_SIZE + 1 ∧
    (¬ 4097 % TARGET_PAGE_SIZE = 0 →
      (kvm_handle_vmgexit_ext_req true (some (some 4097)) 1).npages
        = (4097 + TARGET_PAGE_SIZE - 1) / TARGET_PAGE_SIZE) :=
  ext_req_length_error_reports_pages 4097 1 (by decide)

/-! ## SNP launch update queue (`launch_update`, `snp_launch_update_data`,
`sev_snp_launch_finish`) -/

/-- One `SevLaunchUpdateData` element: guest physical address, host buffer
reference (abstract), length and SNP page type. -/
structure SevLaunchUpdateData where
  gpa : Nat
  hva : Nat
  len : Nat
  page_type : Nat
  deriving Repr, DecidableEq, Inhabited

/-- `snp_launch_update_data`: allocates an entry and
`QTAILQ_INSERT_TAIL(&launch_update, data, next)` — appends it at the tail. -/
def snp_launch_update_data (queue : List SevLaunchUpdateData)
    (gpa hva len ty : Nat) : List SevLaunchUpdateData :=
  queue ++ [⟨gpa, hva, len, ty⟩]

/-- The drain loop of `sev_snp_launch_finish`:
`QTAILQ_FOREACH(data, &launch_update, next) { if (sev_snp_launch_update(..))
exit(1); }`.  `send` abstracts `sev_snp_launch_update` (platform channel plus
`kvm_convert_memory`).  Returns the entries actually sent, in order, and
whether the process aborted (`exit(1)`). -/
def sev_snp_launch_finish_drain (send : SevLaunchUpdateData → Int) :
    List SevLaunchUpdateData → List SevLaunchUpdateData × Bool
  | [] => ([], false)
  | d :: rest =>
    if send d = 0 then
      let r := sev_snp_launch_finish_drain send rest
      (d :: r.1, r.2)
    else ([d], true)

/-- The five queued entries of the C3 scenario. -/
def qEntry (n : Nat) : SevLaunchUpdateData := ⟨n, 0, 4096, 1⟩

def q5 : List SevLaunchUpdateData :=
  [qEntry 1, qEntry 2, qEntry 3, qEntry 4, qEntry 5]

/-- A platform channel that fails exactly on the third queued entry. -/
def send5 : SevLaunchUpdateData → Int := fun d => if d.gpa = 3 then 1 else 0

/-- C3: entries are enqueued at the tail and drained exactly once in strict
FIFO insertion order, each through the platform channel; when every command
succeeds the whole queue is sent in order, and the first failing entry
aborts the finish fatally, so for five queued entries with a failure on the
third, the fourth and fifth are never sent. -/
theorem launch_queue_fifo_drain :
    (∀ (queue : List SevLaunchUpdateData) (gpa hva len ty : Nat),
      snp_launch_update_data queue gpa hva len ty = queue ++ [⟨gpa, hva, len, ty⟩]) ∧
    (∀ (send : SevLaunchUpdateData → Int) (q : List SevLaunchUpdateData),
      ((∀ d ∈ q, send d = 0) → sev_snp_launch_finish_drain send q = (q, false)) ∧
      (∀ q1 d q2, q = q1 ++ d :: q2 → (∀ x ∈ q1, send x = 0) → send d ≠ 0 →
        sev_snp_launch_finish_drain send q = (q1 ++ [d], true))) ∧
    sev_snp_launch_finish_drain send5 q5 = ([qEntry 1, qEntry 2, qEntry 3], true) := by
  refine ⟨fun _ _ _ _ _ => rfl, ?_, by decide⟩
  intro send q
  constructor
  · intro hall
    induction q with
    | nil => rfl
    | cons d rest ih =>
      have hd : send d = 0 := hall d (List.mem_cons_self d rest)
      simp only [sev_snp_launch_finish_drain]
      rw [if_pos hd, ih (fun x hx => hall x (List.mem_cons_of_mem d hx))]
  · intro q1
    induction q1 generalizing q with
    | nil =>
      intro d q2 hq _ hd
      subst hq
      simp only [sev_snp_launch_finish_drain]
      rw [if_neg hd]
      rfl
    | cons x q1 ih =>
      intro d q2 hq hx hd
      subst hq
      have hx0 : send x = 0 := hx x (List.mem_cons_self x q1)
      have ihr := ih (q1 ++ d :: q2) d q2 rfl
        (fun y hy => hx y (List.mem_cons_of_mem x hy)) hd
      simp only [List.cons_append, sev_snp_launch_finish_drain, List.append_eq]
      rw [if_pos hx0, ihr]

/-- Witness for C3's quantified conjunct at the concrete five-entry queue
with a failure on the third entry. -/
theorem launch_queue_fifo_drain_witness :
    sev_snp_launch_finish_drain send5 q5 = ([qEntry 1, qEntry 2] ++ [qEntry 3], true) :=
  (launch_queue_fifo_drain.2.1 send5 q5).2 [qEntry 1, qEntry 2] (qEntry 3)
    [qEntry 4, qEntry 5] rfl (by decide) (by decide)

/-! ## Launch state machine (`SevState`, `sev_check_state`,
`sev_set_guest_state`, `sev_inject_launch_secret`, `sev_launch_get_measure`,
`sev_vm_state_change`) -/

/-- The launch states the source assigns (`SEV_STATE_UNINIT`,
`SEV_STATE_LAUNCH_UPDATE`, `SEV_STATE_LAUNCH_SECRET`, `SEV_STATE_RUNNING`). -/
inductive SevState where
  | uninit
  | launchUpdate
  | launchSecret
  | running
  deriving Repr, DecidableEq, Inhabited

/-- Position of a state in the declared launch order. -/
def SevState.ord : SevState → Nat
  | .uninit => 0
  | .launchUpdate => 1
  | .launchSecret => 2
  | .running => 3

/-- `sev_check_state(sev_common, state)`. -/
def sev_check_state (state : SevState) (s : SevState) : Bool := state == s

/-- `sev_set_guest_state(sev_common, new_state)` (tracing elided; the
assertion `new_state < SEV_STATE__MAX` holds for every constructor). -/
def sev_set_guest_state (_state : SevState) (new_state : SevState) : SevState :=
  new_state

/-- The `error_setg` branches of `sev_inject_launch_secret`. -/
inductive InjectError where
  | badState
  | badHdr
  | badData
  | badGpa
  | platformFailed
  deriving Repr, DecidableEq

/-- Observable effects of one `sev_inject_launch_secret` call: the return
value, how many KVM_SEV_LAUNCH_SECRET platform commands were issued, the
launch state afterwards (the function never assigns it), and which error
branch was taken, if any. -/
structure InjectOutcome where
  ret : Int
  ioctl_count : Nat
  state_after : SevState
  error : Option InjectError
  deriving Repr, DecidableEq

/-- `sev_inject_launch_secret(packet_hdr, secret, gpa, errp)` with SEV
enabled (the QMP entry point).  `hdr_decode` / `data_decode` model
`g_base64_decode` (`none` = NULL, `some sz` = a buffer of `sz` bytes),
`gpa2hva_ok` the guest-address resolution, `ioctl_ret` the
KVM_SEV_LAUNCH_SECRET status. -/
def sev_inject_launch_secret (state : SevState)
    (hdr_decode data_decode : Option Nat) (gpa2hva_ok : Bool)
    (ioctl_ret : Int) : InjectOutcome :=
  if ¬ sev_check_state state SevState.launchSecret then
    ⟨1, 0, state, some .badState⟩
  else
    match hdr_decode with
    | none => ⟨1, 0, state, some .badHdr⟩
    | some hdr_sz =>
      if hdr_sz = 0 then ⟨1, 0, state, some .badHdr⟩
      else
        match data_decode with
        | none => ⟨1, 0, state, some .badData⟩
        | some data_sz =>
          if data_sz = 0 then ⟨1, 0, state, some .badData⟩
          else if ¬ gpa2hva_ok then ⟨1, 0, state, some .badGpa⟩
          else if ioctl_ret ≠ 0 then ⟨ioctl_ret, 1, state, some .platformFailed⟩
          else ⟨0, 1, state, none⟩

/-- C4: secret injection invoked while the launch state is not
LAUNCH_SECRET (for example LAUNCH_UPDATE) fails with the explicit
state-mismatch error, issues no platform command, and leaves the launch
state untouched — it returns before base64 decoding, address resolution or
the ioctl, so no side effect occurs. -/
theorem inject_secret_rejected_outside_window :
    ∀ (state : SevState) (hdr data : Option Nat) (hva : Bool) (ret : Int),
      state ≠ SevState.launchSecret →
      sev_inject_launch_secret state hdr data hva ret =
        ⟨1, 0, state, some InjectError.badState⟩ := by
  intro state hdr data hva ret h
  unfold sev_inject_launch_secret
  rw [if_pos]
  simp [sev_check_state, h]

/-- Witness for C4 at LAUNCH_UPDATE with inputs that would otherwise
succeed. -/
theorem inject_secret_rejected_outside_window_witness :
    sev_inject_launch_secret SevState.launchUpdate (some 16) (some 32) true 0 =
      ⟨1, 0, SevState.launchUpdate, some InjectError.badState⟩ :=
  inject_secret_rejected_outside_window SevState.launchUpdate (some 16) (some 32)
    true 0 (by decide)

/-- Outcome of the machine-init-done measurement step
(`sev_launch_get_measure`): either the process exits (`fatal`, the
`exit(1)` branch), or the handler returns with the resulting launch state
and the retrieved measurement length, if one was stored. -/
inductive MeasureOutcome where
  | fatal
  | ret (state : SevState) (measurement : Option Nat)
  deriving Repr, DecidableEq

/-- `sev_launch_get_measure(notifier, unused)` over the external ioctl
channel: `vmsa_ret` is the KVM_SEV_LAUNCH_UPDATE_VMSA status (issued for ES
guests only), `measure_len` the length the first zero-length
KVM_SEV_LAUNCH_MEASURE query reports back, `measure_ret2` the status of the
second call that retrieves the blob into the exactly-sized buffer. -/
def sev_launch_get_measure (state : SevState) (es_enabled : Bool)
    (vmsa_ret : Int) (measure_len : Nat) (measure_ret2 : Int) : MeasureOutcome :=
  if ¬ sev_check_state state SevState.launchUpdate then
    .ret state none
  else if es_enabled ∧ vmsa_ret ≠ 0 then
    .fatal
  else if measure_len = 0 then
    .ret state none
  else if measure_ret2 ≠ 0 then
    .ret state none
  else
    .ret (sev_set_guest_state state SevState.launchSecret) (some measure_len)

/-- The state effect of `sev_launch_finish` / `sev_snp_launch_finish`:
`ok` abstracts success of all platform commands of the finish sequence
(`exit(1)`, i.e. `none`, on the first failure); success assigns RUNNING. -/
def sev_launch_finish_state (state : SevState) (ok : Bool) : Option SevState :=
  if ok then some (sev_set_guest_state state SevState.running) else none

/-- `sev_vm_state_change(opaque, running, state)`. -/
def sev_vm_state_change (state : SevState) (running : Bool) (finish_ok : Bool) :
    Option SevState :=
  if running then
    if ¬ sev_check_state state SevState.running then
      sev_launch_finish_state state finish_ok
    else some state
  else some state

/-- The events that can touch the launch state after `sev_kvm_init` has
completed: the machine-init-done notifier, a run-state change, and a secret
injection request, each carrying its external-collaborator outcomes. -/
inductive LaunchEvent where
  | machineDone (es_enabled : Bool) (vmsa_ret : Int) (measure_len : Nat)
      (measure_ret2 : Int)
  | runStateChange (running : Bool) (finish_ok : Bool)
  | injectSecret (hdr data : Option Nat) (hva_ok : Bool) (ioctl_ret : Int)

/-- One launch-flow step; `none` models `exit(1)`. -/
def launchStep (state : SevState) : LaunchEvent → Option SevState
  | .machineDone es vr ml mr2 =>
    match sev_launch_get_measure state es vr ml mr2 with
    | .fatal => none
    | .ret s _ => some s
  | .runStateChange running ok => sev_vm_state_change state running ok
  | .injectSecret hdr data hva ret =>
    some (sev_inject_launch_secret state hdr data hva ret).state_after

/-- `sev_kvm_init` sets `sev_common->state = SEV_STATE_UNINIT` and, when the
variant-specific launch-start command succeeds, `sev_launch_start` /
`sev_snp_launch_start` advances it to LAUNCH_UPDATE; any earlier failure
aborts VM creation before the launch flow exists. -/
def sev_launch_start_state : SevState :=
  sev_set_guest_state SevState.uninit SevState.launchUpdate

/-- The launch flow from a given state through a sequence of events,
propagating `exit(1)`. -/
def runLaunch (state : SevState) : List LaunchEvent → Option SevState
  | [] => some state
  | e :: evs =>
    match launchStep state e with
    | none => none
    | some s => runLaunch s evs

lemma inject_state_after (state : SevState) (hdr data : Option Nat)
    (hva : Bool) (ret : Int) :
    (sev_inject_launch_secret state hdr data hva ret).state_after = state := by
  unfold sev_inject_launch_secret
  split
  · rfl
  · cases hdr with
    | none => rfl
    | some hsz =>
      simp only
      split
      · rfl
      · cases data with
        | none => rfl
        | some dsz =>
          simp only
          split
          · rfl
          · split
            · rfl
            · split <;> rfl

lemma measure_state_cases (state : SevState) (es : Bool) (vr : Int) (ml : Nat)
    (mr2 : Int) :
    sev_launch_get_measure state es vr ml mr2 = .fatal ∨
    sev_launch_get_measure state es vr ml mr2 = .ret state none ∨
    (state = SevState.launchUpdate ∧
      sev_launch_get_measure state es vr ml mr2 =
        .ret SevState.launchSecret (some ml)) := by
  unfold sev_launch_get_measure
  by_cases hc : ¬ sev_check_state state SevState.launchUpdate
  · rw [if_pos hc]; right; left; rfl
  · rw [if_neg hc]
    have hst : state = SevState.launchUpdate := by
      rcases state <;> simp [sev_check_state] at hc ⊢
    split
    · left; rfl
    · split
      · right; left; rfl
      · split
        · right; left; rfl
        · right; right; exact ⟨hst, rfl⟩

lemma vm_state_change_cases (state : SevState) (running ok : Bool) (s' : SevState)
    (h : sev_vm_state_change state running ok = some s') :
    s' = state ∨ (state ≠ SevState.running ∧ s' = SevState.running) := by
  unfold sev_vm_state_change sev_launch_finish_state at h
  split at h
  · split at h
    · split at h
      · right
        refine ⟨?_, (Option.some_inj.mp h).symm⟩
        rename_i hc _
        simpa [sev_check_state] using hc
      · simp at h
    · left; exact (Option.some_inj.mp h).symm
  · left; exact (Option.some_inj.mp h).symm

lemma launchStep_mono (s : SevState) (e : LaunchEvent) (s' : SevState)
    (h : launchStep s e = some s') : s.ord ≤ s'.ord := by
  cases e with
  | machineDone es vr ml mr2 =>
    simp only [launchStep] at h
    rcases measure_state_cases s es vr ml mr2 with hm | hm | ⟨hst, hm⟩
    · rw [hm] at h; simp at h
    · rw [hm] at h
      simp only [Option.some_inj] at h
      subst h; exact le_refl _
    · rw [hm] at h
      simp only [Option.some_inj] at h
      subst hst; subst h; decide
  | runStateChange running ok =>
    simp only [launchStep] at h
    rcases vm_state_change_cases s running ok s' h with hs | ⟨_, hs⟩
    · subst hs; exact le_refl _
    · subst hs; cases s <;> decide
  | injectSecret hdr data hva ret =>
    simp only [launchStep, Option.some_inj] at h
    rw [inject_state_after] at h
    subst h; exact le_refl _

lemma runLaunch_mono (evs : List LaunchEvent) :
    ∀ (s s' : SevState), runLaunch s evs = some s' → s.ord ≤ s'.ord := by
  induction evs with
  | nil =>
    intro s s' h
    simp only [runLaunch, Option.some_inj] at h
    subst h; exact le_refl _
  | cons e evs ih =>
    intro s s' h
    simp only [runLaunch] at h
    cases hstep : launchStep s e with
    | none => rw [hstep] at h; simp at h
    | some s1 =>
      rw [hstep] at h
      exact le_trans (launchStep_mono s e s1 hstep) (ih s1 s' h)

lemma launchStep_pred (s : SevState) (e : LaunchEvent) (s' : SevState)
    (hu : s ≠ SevState.uninit) (h : launchStep s e = some s') (hne : s' ≠ s) :
    (s' = SevState.launchSecret → s = SevState.launchUpdate) ∧
    (s' = SevState.running →
      s = SevState.launchUpdate ∨ s = SevState.launchSecret) ∧
    s' ≠ SevState.uninit ∧ s' ≠ SevState.launchUpdate := by
  cases e with
  | machineDone es vr ml mr2 =>
    simp only [launchStep] at h
    rcases measure_state_cases s es vr ml mr2 with hm | hm | ⟨hst, hm⟩
    · rw [hm] at h; simp at h
    · rw [hm] at h
      simp only [Option.some_inj] at h
      exact absurd h.symm hne
    · rw [hm] at h
      simp only [Option.some_inj] at h
      subst hst; subst h
      exact ⟨fun _ => rfl, by simp, by simp, by simp⟩
  | runStateChange running ok =>
    simp only [launchStep] at h
    rcases vm_state_change_cases s running ok s' h with hs | ⟨hnr, hs⟩
    · exact absurd hs hne
    · subst hs
      refine ⟨by simp, fun _ => ?_, by simp, by simp⟩
      rcases s with _ | _ | _ | _
      · exact absurd rfl hu
      · exact Or.inl rfl
      · exact Or.inr rfl
      · exact absurd rfl hnr
  | injectSecret hdr data hva ret =>
    simp only [launchStep, Option.some_inj] at h
    rw [inject_state_after] at h
    exact absurd h.symm hne

lemma runLaunch_not_uninit (evs : List LaunchEvent) :
    ∀ (s : SevState), s ≠ SevState.uninit →
      ∀ s', runLaunch s evs = some s' → s' ≠ SevState.uninit := by
  intro s hs s' h
  have := runLaunch_mono evs s s' h
  rcases s with _ | _ | _ | _ <;> rcases s' with _ | _ | _ | _ <;>
    simp_all [SevState.ord]

/-- C5: over the launch flow (which leaves `sev_kvm_init` in LAUNCH_UPDATE)
the state only takes the values UNINIT, LAUNCH_UPDATE, LAUNCH_SECRET,
RUNNING in that relative order: every state-setting step is monotone in that
order (never backward, also along whole event traces), LAUNCH_SECRET is
entered only from LAUNCH_UPDATE (the `sev_check_state` guard), RUNNING only
from LAUNCH_UPDATE or LAUNCH_SECRET, and no step re-enters UNINIT or
LAUNCH_UPDATE. -/
theorem launch_state_forward_only :
    (∀ (s : SevState) (e : LaunchEvent) (s' : SevState),
      launchStep s e = some s' → s.ord ≤ s'.ord) ∧
    (∀ (evs : List LaunchEvent) (s s' : SevState),
      runLaunch s evs = some s' → s.ord ≤ s'.ord) ∧
    (∀ (s : SevState) (e : LaunchEvent) (s' : SevState), s ≠ SevState.uninit →
      launchStep s e = some s' → s' ≠ s →
      (s' = SevState.launchSecret → s = SevState.launchUpdate) ∧
      (s' = SevState.running →
        s = SevState.launchUpdate ∨ s = SevState.launchSecret) ∧
      s' ≠ SevState.uninit ∧ s' ≠ SevState.launchUpdate) ∧
    (∀ (evs : List LaunchEvent) (s' : SevState),
      runLaunch sev_launch_start_state evs = some s' → s' ≠ SevState.uninit) :=
  ⟨launchStep_mono, fun evs => runLaunch_mono evs, launchStep_pred,
    fun evs s' h => runLaunch_not_uninit evs sev_launch_start_state
      (by decide) s' h⟩

/-- Witness for C5 at a concrete flow: measurement advances LAUNCH_UPDATE to
LAUNCH_SECRET and a run request then advances to RUNNING, monotonically. -/
theorem launch_state_forward_only_witness :
    SevState.launchUpdate.ord ≤ SevState.launchSecret.ord ∧
    sev_launch_start_state.ord ≤ SevState.running.ord ∧
    (SevState.launchSecret = SevState.launchSecret →
      SevState.launchUpdate = SevState.launchUpdate) ∧
    SevState.launchSecret ≠ SevState.uninit :=
  ⟨launch_state_forward_only.1 SevState.launchUpdate
      (LaunchEvent.machineDone false 0 32 0) SevState.launchSecret (by decide),
   launch_state_forward_only.2.1
      [LaunchEvent.machineDone false 0 32 0, LaunchEvent.runStateChange true true]
      sev_launch_start_state SevState.running (by decide),
   (launch_state_forward_only.2.2.1 SevState.launchUpdate
      (LaunchEvent.machineDone false 0 32 0) SevState.launchSecret (by decide)
      (by decide) (by decide)).1,
   launch_state_forward_only.2.2.2 [LaunchEvent.machineDone false 0 32 0]
      SevState.launchSecret (by decide)⟩

/-- C6 counterexample: with the state in LAUNCH_UPDATE and the zero-length
launch-measure length query failing (no length reported back),
`sev_launch_get_measure` merely reports the error and returns with the state
unchanged — it is not fatal, contradicting the claim that any ioctl failure
at this stage terminates the process. -/
theorem measure_query_failure_not_fatal :
    sev_launch_get_measure SevState.launchUpdate true 0 0 0 =
      MeasureOutcome.ret SevState.launchUpdate none ∧
    sev_launch_get_measure SevState.launchUpdate true 0 0 0 ≠
      MeasureOutcome.fatal := by
  decide

/-- C6 (amended): during the update-to-secret measurement step nothing is
retried; a failing all-vCPU VMSA update for ES guests is fatal
(process-terminating), while a failing launch-measure length query (zero
reported length) or a failing retrieval only makes the handler return with
the state still LAUNCH_UPDATE and no measurement stored; the state advances
to LAUNCH_SECRET exactly when all issued ioctls succeed. -/
theorem measure_step_failure_policy :
    ∀ (es : Bool) (vr : Int) (ml : Nat) (mr2 : Int),
      (es = true → vr ≠ 0 →
        sev_launch_get_measure SevState.launchUpdate es vr ml mr2 =
          MeasureOutcome.fatal) ∧
      ((es = true → vr = 0) → ml = 0 →
        sev_launch_get_measure SevState.launchUpdate es vr ml mr2 =
          MeasureOutcome.ret SevState.launchUpdate none) ∧
      ((es = true → vr = 0) → ml ≠ 0 → mr2 ≠ 0 →
        sev_launch_get_measure SevState.launchUpdate es vr ml mr2 =
          MeasureOutcome.ret SevState.launchUpdate none) ∧
      ((es = true → vr = 0) → ml ≠ 0 → mr2 = 0 →
        sev_launch_get_measure SevState.launchUpdate es vr ml mr2 =
          MeasureOutcome.ret SevState.launchSecret (some ml)) := by
  intro es vr ml mr2
  refine ⟨?_, ?_, ?_, ?_⟩
  · intro hes hvr
    unfold sev_launch_get_measure
    rw [if_neg (by decide), if_pos ⟨hes, hvr⟩]
  · intro hv hml
    unfold sev_launch_get_measure
    rw [if_neg (by decide), if_neg (fun hc => hc.2 (hv hc.1)), if_pos hml]
  · intro hv hml hmr2
    unfold sev_launch_get_measure
    rw [if_neg (by decide), if_neg (fun hc => hc.2 (hv hc.1)), if_neg hml,
      if_pos hmr2]
  · intro hv hml hmr2
    unfold sev_launch_get_measure
    rw [if_neg (by decide), if_neg (fun hc => hc.2 (hv hc.1)), if_neg hml,
      if_neg (by simp [hmr2])]
    rfl

/-- Witness for C6's amended theorem: the four branches at concrete ioctl
outcomes. -/
theorem measure_step_failure_policy_witness :
    sev_launch_get_measure SevState.launchUpdate true 1 0 0 =
      MeasureOutcome.fatal ∧
    sev_launch_get_measure SevState.launchUpdate false 0 0 0 =
      MeasureOutcome.ret SevState.launchUpdate none ∧
    sev_launch_get_measure SevState.launchUpdate false 0 32 1 =
      MeasureOutcome.ret SevState.launchUpdate none ∧
    sev_launch_get_measure SevState.launchUpdate false 0 32 0 =
      MeasureOutcome.ret SevState.launchSecret (some 32) :=
  ⟨(measure_step_failure_policy true 1 0 0).1 rfl (by decide),
   (measure_step_failure_policy false 0 0 0).2.1 (fun h => by cases h) rfl,
   (measure_step_failure_policy false 0 32 1).2.2.1 (fun h => by cases h)
     (by decide) (by decide),
   (measure_step_failure_policy false 0 32 0).2.2.2 (fun h => by cases h)
     (by decide) rfl⟩

/-! ## Measured hash table (`SevHashTable`, `PaddedSevHashTable`,
`build_kernel_loader_hashes`) -/

def HASH_SIZE : Nat := 32

/-- Byte size of `QemuUUID`. -/
def UUID_SIZE : Nat := 16

/-- `sizeof(SevHashTableEntry)`: guid, `uint16_t len`, 32-byte hash
(packed). -/
def sevHashTableEntrySize : Nat := UUID_SIZE + 2 + HASH_SIZE

/-- `sizeof(SevHashTable)`: guid, `uint16_t len`, three entries (packed). -/
def sevHashTableSize : Nat := UUID_SIZE + 2 + 3 * sevHashTableEntrySize

/-- QEMU `ROUND_UP(n, m)`. -/
def ROUND_UP (n m : Nat) : Nat := ((n + m - 1) / m) * m

/-- Byte count of `PaddedSevHashTable.padding`:
`ROUND_UP(sizeof(SevHashTable), 16) - sizeof(SevHashTable)`. -/
def paddedSevHashTablePad : Nat :=
  ROUND_UP sevHashTableSize 16 - sevHashTableSize

/-- `UUID_LE(a, b, c, d0..d7)`: `a` as four little-endian bytes, `b` and `c`
as two little-endian bytes each, then the eight raw bytes. -/
def UUID_LE (a b c : Nat) (d : List Nat) : List Nat :=
  [a % 256, a / 256 % 256, a / 2 ^ 16 % 256, a / 2 ^ 24 % 256,
   b % 256, b / 256 % 256, c % 256, c / 256 % 256] ++ d

def sev_hash_table_header_guid : List Nat :=
  UUID_LE 0x9438d606 0x4f22 0x4cc9 [0xb4, 0x79, 0xa7, 0x93, 0xd4, 0x11, 0xfd, 0x21]

def sev_kernel_entry_guid : List Nat :=
  UUID_LE 0x4de79437 0xabd2 0x427f [0xb8, 0x35, 0xd5, 0xb1, 0x72, 0xd2, 0x04, 0x5b]

def sev_initrd_entry_guid : List Nat :=
  UUID_LE 0x44baf731 0x3a2f 0x4bd7 [0x9a, 0xf1, 0x41, 0xe2, 0x91, 0x69, 0x78, 0x1d]

def sev_cmdline_entry_guid : List Nat :=
  UUID_LE 0x97d02dd8 0xbd20 0x4c94 [0xaa, 0x78, 0xe7, 0x71, 0x4d, 0x36, 0xab, 0x2a]

/-- One `SevHashTableEntry` (packed: guid, entry length, SHA-256 digest). -/
structure SevHashTableEntry where
  guid : List Nat
  len : Nat
  hash : List Nat
  deriving Repr, DecidableEq, Inhabited

/-- `SevHashTable` (packed header + cmdline/initrd/kernel entries). -/
structure SevHashTable where
  guid : List Nat
  len : Nat
  cmdline : SevHashTableEntry
  initrd : SevHashTableEntry
  kernel : SevHashTableEntry
  deriving Repr, DecidableEq, Inhabited

/-- `PaddedSevHashTable`: the table followed by its zero padding up to the
16-byte boundary. -/
structure PaddedSevHashTable where
  ht : SevHashTable
  padding : List Nat
  deriving Repr, DecidableEq, Inhabited

/-- `build_kernel_loader_hashes(padded_ht, ctx, errp)`.  `sha256` abstracts
`qcrypto_hash_bytes` / `qcrypto_hash_bytesv` (`none` models a hash failure,
which makes the builder `return false`).  The kernel digest is over setup
data followed by kernel bytes as one continuous stream (the two-element
iovec); the cmdline bytes already include the terminating NUL byte
(`ctx->cmdline_size` counts it).  The final `memset` zero-fills the
padding. -/
def build_kernel_loader_hashes (sha256 : List Nat → Option (List Nat))
    (cmdline_data initrd_data setup_data kernel_data : List Nat) :
    Option PaddedSevHashTable :=
  match sha256 cmdline_data with
  | none => none
  | some cmdline_hash =>
    match sha256 initrd_data with
    | none => none
    | some initrd_hash =>
      match sha256 (setup_data ++ kernel_data) with
      | none => none
      | some kernel_hash =>
        some ⟨⟨sev_hash_table_header_guid, sevHashTableSize,
          ⟨sev_cmdline_entry_guid, sevHashTableEntrySize, cmdline_hash⟩,
          ⟨sev_initrd_entry_guid, sevHashTableEntrySize, initrd_hash⟩,
          ⟨sev_kernel_entry_guid, sevHashTableEntrySize, kernel_hash⟩⟩,
          List.replicate paddedSevHashTablePad 0⟩

/-- C7: the measured hash table is padded to a 16-byte boundary (the source
asserts `sizeof(PaddedSevHashTable) % 16 == 0` at build time) and, for all
input sizes of command line, initrd, setup data and kernel and any hash
oracle, every padding byte of a successfully built table is zero. -/
theorem hash_table_padding_zero :
    (sevHashTableSize + paddedSevHashTablePad) % 16 = 0 ∧
    ∀ (sha256 : List Nat → Option (List Nat))
      (cmdline initrd setup kernel : List Nat) (t : PaddedSevHashTable),
      build_kernel_loader_hashes sha256 cmdline initrd setup kernel = some t →
      t.padding.length = paddedSevHashTablePad ∧ ∀ b ∈ t.padding, b = 0 := by
  refine ⟨by decide, ?_⟩
  intro sha256 cmdline initrd setup kernel t h
  unfold build_kernel_loader_hashes at h
  cases hc : sha256 cmdline with
  | none => rw [hc] at h; simp at h
  | some ch =>
    rw [hc] at h
    cases hi : sha256 initrd with
    | none => rw [hi] at h; simp at h
    | some ih2 =>
      rw [hi] at h
      cases hk : sha256 (setup ++ kernel) with
      | none => rw [hk] at h; simp at h
      | some kh =>
        rw [hk] at h
        simp only [Option.some_inj] at h
        subst h
        exact ⟨List.length_replicate _ _,
          fun b hb => List.eq_of_mem_replicate hb⟩

/-- The table built from empty inputs under a constant hash oracle, used as
the concrete instance of C7. -/
def htWitnessTable : PaddedSevHashTable :=
  ⟨⟨sev_hash_table_header_guid, sevHashTableSize,
    ⟨sev_cmdline_entry_guid, sevHashTableEntrySize, List.replicate 32 0⟩,
    ⟨sev_initrd_entry_guid, sevHashTableEntrySize, List.replicate 32 0⟩,
    ⟨sev_kernel_entry_guid, sevHashTableEntrySize, List.replicate 32 0⟩⟩,
    List.replicate paddedSevHashTablePad 0⟩

/-- Witness for C7 at a concrete build (1-byte command line, no initrd, no
setup data, 1-byte kernel). -/
theorem hash_table_padding_zero_witness :
    htWitnessTable.padding.length = paddedSevHashTablePad ∧
    ∀ b ∈ htWitnessTable.padding, b = 0 :=
  hash_table_padding_zero.2 (fun _ => some (List.replicate 32 0))
    [0] [] [] [0] htWitnessTable (by decide)

end Sev







